import Mathlib

/-
Verification development for the CitationSum repository.

Shallow embedding of:
  * src/src/models/decoder_with_graph.py
      - TransformerDecoderLayer.forward          (abstract tensor wiring + mask arithmetic)
      - TransformerDecoderLayer._get_attn_subsequent_mask
      - TransformerDecoderWithGraph.forward      (state transition; and a per-position
        semantic model for the incremental-decoding equivalence)
      - TransformerDecoderState (init, _all, detach, update_state, _init_cache,
        repeat_beam_size_times)
  * src/src/models/loss.py
      - NMTLossCompute._ncontrast, NMTLossCompute._compute_loss
      - LossComputeBase.sharded_compute_loss / monolithic_compute_loss
      - shards / filter_shard_state (final-backward tail)

Tensors are modelled per claim at the granularity the claim needs: opaque values
with abstract operations for dataflow claims, index functions / nested lists for
elementwise claims, and rationals for the loss arithmetic.
-/

set_option autoImplicit false

universe u v w

/-! ## Generic list helpers -/

/-- Map with the element's index, starting at `n`. -/
def mapWithIndex {α : Type u} {β : Type v} (f : Nat → α → β) : Nat → List α → List β
  | _, [] => []
  | n, a :: as => f n a :: mapWithIndex f (n + 1) as

theorem length_mapWithIndex {α : Type u} {β : Type v} (f : Nat → α → β) :
    ∀ (n : Nat) (l : List α), (mapWithIndex f n l).length = l.length := by
  intro n l
  induction l generalizing n with
  | nil => rfl
  | cons a as ih => simp [mapWithIndex, ih]

theorem getD_mapWithIndex {α : Type u} {β : Type v} (f : Nat → α → β)
    (d : β) (d' : α) :
    ∀ (n : Nat) (l : List α) (i : Nat), i < l.length →
      (mapWithIndex f n l).getD i d = f (n + i) (l.getD i d') := by
  intro n l
  induction l generalizing n with
  | nil => intro i h; simp at h
  | cons a as ih =>
    intro i h
    cases i with
    | zero => simp [mapWithIndex]
    | succ j =>
      simp only [mapWithIndex, List.getD_cons_succ]
      rw [ih (n + 1) j (by simpa using Nat.lt_of_succ_lt_succ h)]
      congr 1
      omega

theorem getD_zipWith {α : Type u} {β : Type v} {γ : Type w}
    (f : α → β → γ) (dc : γ) (da : α) (db : β) :
    ∀ (l₁ : List α) (l₂ : List β) (i : Nat), i < l₁.length → i < l₂.length →
      (List.zipWith f l₁ l₂).getD i dc = f (l₁.getD i da) (l₂.getD i db) := by
  intro l₁
  induction l₁ with
  | nil => intro l₂ i h₁ _; simp at h₁
  | cons a as ih =>
    intro l₂ i h₁ h₂
    cases l₂ with
    | nil => simp at h₂
    | cons b bs =>
      cases i with
      | zero => simp
      | succ j =>
        simp only [List.zipWith_cons_cons, List.getD_cons_succ]
        exact ih bs j (by simpa using Nat.lt_of_succ_lt_succ h₁)
          (by simpa using Nat.lt_of_succ_lt_succ h₂)

theorem getD_map {α : Type u} {β : Type v} (f : α → β) (d : β) (d' : α) :
    ∀ (l : List α) (i : Nat), i < l.length →
      (l.map f).getD i d = f (l.getD i d') := by
  intro l
  induction l with
  | nil => intro i h; simp at h
  | cons a as ih =>
    intro i h
    cases i with
    | zero => simp
    | succ j =>
      simp only [List.map_cons, List.getD_cons_succ]
      exact ih j (by simpa using Nat.lt_of_succ_lt_succ h)

theorem drop_eq_getD_cons {α : Type u} (d : α) :
    ∀ (l : List α) (i : Nat), i < l.length →
      l.drop i = l.getD i d :: l.drop (i + 1) := by
  intro l
  induction l with
  | nil => intro i h; simp at h
  | cons a as ih =>
    intro i h
    cases i with
    | zero => simp
    | succ j =>
      simp only [List.drop_succ_cons, List.getD_cons_succ]
      exact ih j (by simpa using Nat.lt_of_succ_lt_succ h)

theorem take_succ_getD {α : Type u} (d : α) :
    ∀ (l : List α) (i : Nat), i < l.length →
      l.take (i + 1) = l.take i ++ [l.getD i d] := by
  intro l
  induction l with
  | nil => intro i h; simp at h
  | cons a as ih =>
    intro i h
    cases i with
    | zero => simp
    | succ j =>
      simp only [List.take_succ_cons, List.getD_cons_succ]
      rw [ih j (by simpa using Nat.lt_of_succ_lt_succ h)]
      simp

/-! ## Decoder state (src/src/models/decoder_with_graph.py, TransformerDecoderState)

The per-layer cache record created by `_init_cache` holds six optional tensor
slots; the cache itself is a dict keyed by "layer_0", "layer_1", ..., kept here
as an ordered key/value list. The tensor type is a parameter `τ`: claims about
autograd attachment instantiate it with `ATensor` below, claims about data
replication with `List (List Int)`. -/

structure LayerCacheRec (τ : Type u) where
  memory_keys : Option τ
  memory_values : Option τ
  g_memory_keys : Option τ
  g_memory_values : Option τ
  self_keys : Option τ
  self_values : Option τ
  deriving Repr, DecidableEq

structure TransformerDecoderState (τ : Type u) where
  src : τ
  g_src : τ
  previous_input : Option τ
  previous_layer_inputs : Option τ
  cache : Option (List (String × LayerCacheRec τ))
  deriving Repr, DecidableEq

/-- `TransformerDecoderState.__init__`: fresh state, history and cache all `None`. -/
def TransformerDecoderState.init {τ : Type u} (src g_src : τ) : TransformerDecoderState τ :=
  ⟨src, g_src, none, none, none⟩

/-- `TransformerDecoderState.update_state`: builds a fresh state from the receiver's
`src`/`g_src`, then sets the two history fields. The receiver is not assigned to
(the Python method constructs a new object and returns it), so the embedding is a
pure function of the receiver. -/
def TransformerDecoderState.update_state {τ : Type u} (s : TransformerDecoderState τ)
    (new_input : τ) (previous_layer_inputs : τ) : TransformerDecoderState τ :=
  let state := TransformerDecoderState.init s.src s.g_src
  { state with
    previous_input := some new_input
    previous_layer_inputs := some previous_layer_inputs }

/-- The empty per-layer cache record built inside `_init_cache`. -/
def emptyLayerCacheRec (τ : Type u) : LayerCacheRec τ :=
  ⟨none, none, none, none, none, none⟩

/-- `TransformerDecoderState._init_cache`: populate `cache` with one null-slot
record per layer, keyed "layer_0" .. "layer_{n-1}". -/
def TransformerDecoderState.init_cache {τ : Type u} (s : TransformerDecoderState τ)
    (num_layers : Nat) : TransformerDecoderState τ :=
  { s with
    cache := some ((List.range num_layers).map
      (fun l => ("layer_" ++ toString l, emptyLayerCacheRec τ))) }

/-- `TransformerDecoderWithGraph.init_decoder_state`: fresh state; if `with_cache`,
populate every layer's cache record with null slots. -/
def init_decoder_state {τ : Type u} (num_layers : Nat) (src g_src : τ)
    (with_cache : Bool) : TransformerDecoderState τ :=
  let state := TransformerDecoderState.init src g_src
  if with_cache then state.init_cache num_layers else state

/-- A tensor carrying an autograd-attachment flag, for the claims about
`detach`: `Tensor.detach()` returns a value cut off from the autograd graph. -/
structure ATensor where
  val : Int
  attached : Bool
  deriving Repr, DecidableEq

/-- `Tensor.detach()`: same data, detached from the autograd graph. -/
def ATensor.detach (t : ATensor) : ATensor := { t with attached := false }

/-- `TransformerDecoderState.detach`: detaches `previous_input` and
`previous_layer_inputs` when present, and `src` and `g_src`. The source method
(decoder_with_graph.py lines 276-282) does not visit the `cache` field. -/
def TransformerDecoderState.detach (s : TransformerDecoderState ATensor) :
    TransformerDecoderState ATensor :=
  { s with
    previous_input := s.previous_input.map ATensor.detach
    previous_layer_inputs := s.previous_layer_inputs.map ATensor.detach
    src := s.src.detach
    g_src := s.g_src.detach }

/-- `tensor.data.repeat(1, beam_size, 1)` on a 2-D tensor `t` (viewed as
`1 × d0 × d1` and tiled along the middle axis): the whole tensor stacked
`beam_size` times along its first axis. -/
def repeatBeamData (beam_size : Nat) (t : List (List Int)) : List (List Int) :=
  (List.replicate beam_size t).flatten

/-- `TransformerDecoderState.repeat_beam_size_times`: the source first reassigns
`self.src` and then builds `self.g_src` from the (already reassigned)
`self.src.data`, not from `self.g_src`. -/
def TransformerDecoderState.repeat_beam_size_times
    (s : TransformerDecoderState (List (List Int))) (beam_size : Nat) :
    TransformerDecoderState (List (List Int)) :=
  let src' := repeatBeamData beam_size s.src
  { s with src := src', g_src := repeatBeamData beam_size src' }

/-- State transition performed by `TransformerDecoderWithGraph.forward`
(decoder_with_graph.py lines 206-234): with no cache, the collected per-layer
`all_input`s are folded into a new state via `update_state`; in cache mode the
same state object is returned, its cache records having been filled in place by
the attention sublayers (`updCache` stands for that in-place fill). -/
def forwardState {τ : Type u} (s : TransformerDecoderState τ) (tgt saved_inputs : τ)
    (updCache : List (String × LayerCacheRec τ) → List (String × LayerCacheRec τ)) :
    TransformerDecoderState τ :=
  match s.cache with
  | none => s.update_state tgt saved_inputs
  | some c => { s with cache := some (updCache c) }

/-- States reachable via the initializer (with or without cache), via
`update_state`, or as the state returned by a decoder stack forward pass. -/
inductive ReachableState (τ : Type u) (num_layers : Nat) : TransformerDecoderState τ → Prop
  | init (src g_src : τ) (with_cache : Bool) :
      ReachableState τ num_layers (init_decoder_state num_layers src g_src with_cache)
  | update (s : TransformerDecoderState τ) (n l : τ) :
      ReachableState τ num_layers s → ReachableState τ num_layers (s.update_state n l)
  | fwd (s : TransformerDecoderState τ) (tgt saved : τ)
      (f : List (String × LayerCacheRec τ) → List (String × LayerCacheRec τ)) :
      ReachableState τ num_layers s → ReachableState τ num_layers (forwardState s tgt saved f)

/-! ## Decoder layer wiring (TransformerDecoderLayer.forward, lines 50-100)

`T` is the tensor type, `M` the mask type, `C` the layer-cache handle type.
The attention modules, layer norms, feed-forward, dropout and `torch.cat` are
the opaque capabilities of the layer; the wiring between them is what the
source function determines and what is embedded here. -/

structure DecoderLayerFns (T : Type u) (M : Type v) (C : Type w) where
  layer_norm_1 : T → T
  layer_norm_2 : T → T
  layer_norm_3 : T → T
  self_attn : T → T → T → Option M → Option C → T
  graph_attn : T → T → T → Option M → Option C → T
  context_attn : T → T → T → Option M → Option C → T
  feed_forward : T → T
  drop : T → T
  cat : T → T → T
  dec_mask0 : M → M

/-- Self-attention mask selection in `TransformerDecoderLayer.forward`: the
computed `dec_mask` is replaced by `None` exactly when `previous_input` is
supplied (lines 73-75). -/
def layerSelfAttnMask {T : Type u} {M : Type v}
    (previous_input : Option T) (dec_mask : Option M) : Option M :=
  match previous_input with
  | some _ => none
  | none => dec_mask

/-- `all_input` of `TransformerDecoderLayer.forward`: the normalized input,
concatenated after `previous_input` when that is supplied. -/
def layerAllInput {T : Type u} {M : Type v} {C : Type w} (F : DecoderLayerFns T M C)
    (inputs : T) (previous_input : Option T) : T :=
  let input_norm := F.layer_norm_1 inputs
  match previous_input with
  | some prev => F.cat prev input_norm
  | none => input_norm

/-- Self-attention sublayer output `query` (lines 77-81):
dropout of the attended value, residual-added to the raw input. -/
def layerQuery {T : Type u} {M : Type v} {C : Type w} [Add T] (F : DecoderLayerFns T M C)
    (inputs : T) (tgt_pad_mask : M) (previous_input : Option T)
    (layer_cache : Option C) : T :=
  let input_norm := F.layer_norm_1 inputs
  let all_input := layerAllInput F inputs previous_input
  let dec_mask := layerSelfAttnMask previous_input (some (F.dec_mask0 tgt_pad_mask))
  F.drop (F.self_attn all_input all_input input_norm dec_mask layer_cache) + inputs

/-- Graph cross-attention sublayer output `query_g` (lines 84-90). -/
def layerQueryG {T : Type u} {M : Type v} {C : Type w} [Add T] (F : DecoderLayerFns T M C)
    (inputs g_memory : T) (g_memory_mask tgt_pad_mask : M) (previous_input : Option T)
    (layer_cache : Option C) : T :=
  let query := layerQuery F inputs tgt_pad_mask previous_input layer_cache
  let query_norm := F.layer_norm_2 query
  F.drop (F.graph_attn g_memory g_memory query_norm (some g_memory_mask) layer_cache) + query

/-- Document (bert-encoding) cross-attention result `mid` (lines 93-97). -/
def layerMid {T : Type u} {M : Type v} {C : Type w} [Add T] (F : DecoderLayerFns T M C)
    (inputs memory_bank g_memory : T) (src_pad_mask g_memory_mask tgt_pad_mask : M)
    (previous_input : Option T) (layer_cache : Option C) : T :=
  let query_g := layerQueryG F inputs g_memory g_memory_mask tgt_pad_mask
    previous_input layer_cache
  let query_g_norm := F.layer_norm_3 query_g
  F.context_attn memory_bank memory_bank query_g_norm (some src_pad_mask) layer_cache

/-- `TransformerDecoderLayer.forward` (lines 50-100): returns
`(output, all_input)`. Written as the source: `dec_mask` from the target pad
mask plus the subsequent-mask slice, the three attention sublayers each with
dropout and residual, and the feed-forward consuming `self.drop(mid) + query`
(line 98) — `query` being the self-attention sublayer output. -/
def TransformerDecoderLayer.forward {T : Type u} {M : Type v} {C : Type w} [Add T]
    (F : DecoderLayerFns T M C) (inputs memory_bank g_memory : T)
    (src_pad_mask g_memory_mask tgt_pad_mask : M)
    (previous_input : Option T) (layer_cache : Option C) : T × T :=
  let dec_mask : Option M := some (F.dec_mask0 tgt_pad_mask)
  let input_norm := F.layer_norm_1 inputs
  let all_input := layerAllInput F inputs previous_input
  let dec_mask := layerSelfAttnMask previous_input dec_mask
  let query := F.drop (F.self_attn all_input all_input input_norm dec_mask layer_cache) + inputs
  let query_norm := F.layer_norm_2 query
  let query_graph := F.graph_attn g_memory g_memory query_norm (some g_memory_mask) layer_cache
  let query_g := F.drop query_graph + query
  let query_g_norm := F.layer_norm_3 query_g
  let mid := F.context_attn memory_bank memory_bank query_g_norm (some src_pad_mask) layer_cache
  let output := F.feed_forward (F.drop mid + query)
  (output, all_input)

/-! ## Causal mask arithmetic (lines 67-69 and 102-117), elementwise -/

/-- `MAX_SIZE` from decoder_with_graph.py. -/
def MAX_SIZE : Nat := 5000

/-- `_get_attn_subsequent_mask(size)` : `np.triu(np.ones((1, size, size)), k=1)`,
the strict upper-triangular 0/1 matrix (the leading axis of extent 1 is
dropped). -/
def attn_subsequent_mask (size : Nat) : List (List Nat) :=
  (List.range size).map (fun i => (List.range size).map (fun j => if j > i then 1 else 0))

/-- One batch row of `tgt_pad_mask`:
`tgt_words.data.eq(padding_idx).unsqueeze(1).expand(tgt_batch, tgt_len, tgt_len)` —
an `L × L` matrix whose every row is the padding indicator of the target row. -/
def tgt_pad_mask_mat (padding_idx : Nat) (tgt_row : List Nat) : List (List Bool) :=
  tgt_row.map (fun _ => tgt_row.map (fun t => t == padding_idx))

/-- `m[:, :L, :L]` on a square matrix (per batch row). -/
def sliceMat (m : List (List Nat)) (L : Nat) : List (List Nat) :=
  (m.take L).map (fun r => r.take L)

/-- `dec_mask = torch.gt(tgt_pad_mask + self.mask[:, :L, :L], 0)` (lines 67-69),
one batch row: boolean + uint8 addition followed by greater-than-zero. -/
def dec_mask_mat (padding_idx : Nat) (tgt_row : List Nat) : List (List Bool) :=
  List.zipWith (List.zipWith (fun (p : Bool) (s : Nat) => decide (0 < (if p then 1 else 0) + s)))
    (tgt_pad_mask_mat padding_idx tgt_row)
    (sliceMat (attn_subsequent_mask MAX_SIZE) tgt_row.length)

/-! ## Per-position semantics of the decoder stack (for the caching protocol)

Modelled from the spec: `MultiHeadedAttention` and `PositionalEncoding` live in
models/neural.py and models/encoder.py, which are not part of src/. The spec
describes the attention capability as: given query/key/value tensors and an
optional pad/causal mask, produce the attended output, with masked key
positions excluded; in incremental mode a layer cache accumulates the
previously computed key/value projections so each step extends them by the new
position. Positional encoding adds a position-dependent vector, offset by the
current step index when decoding incrementally.

Accordingly each attention module is a function `List V → V → V` from the
in-order list of *unmasked* key/value inputs and the query at one target
position to the attended output; the per-layer self-attention cache is the
accumulated list of key inputs. The mask wiring around those functions
(which positions are excluded at which target position) is taken from the
source: `dec_mask` of decoder_with_graph.py masks pad positions and `j > i`
in a full pass, while in cache mode it is built from the single current
token only; the memory/graph pad masks have identical rows across target
positions, so cross attention sees the same filtered memory everywhere. -/

structure LayerSem (V : Type u) where
  ln1 : V → V
  ln2 : V → V
  ln3 : V → V
  self_attn : List V → V → V
  graph_attn : List V → V → V
  context_attn : List V → V → V
  feed_forward : V → V
  drop : V → V

/-- Unmasked self-attention keys for target position `i` in a full pass:
positions `j ≤ i` that are not padding. -/
def maskedKeys {V : Type u} (pads : List Bool) (keys : List V) (i : Nat) : List V :=
  ((keys.zip pads).take (i + 1)).filterMap (fun kp => if kp.2 then none else some kp.1)

/-- One decoder layer over a whole target sequence (non-incremental pass,
`previous_input = None`): per position, self attention over the causally
masked normalized inputs, then graph and document cross attention, with the
feed-forward consuming `drop mid + q` where `q` is the self-attention sublayer
output (source line 98). -/
def layerForwardFull {V : Type u} [Add V] (L : LayerSem V) (pads : List Bool)
    (gctx mctx : List V) (xs : List V) : List V :=
  let norms := xs.map L.ln1
  mapWithIndex (fun i x =>
    let q := L.drop (L.self_attn (maskedKeys pads norms i) (L.ln1 x)) + x
    let qg := L.drop (L.graph_attn gctx (L.ln2 q)) + q
    let mid := L.context_attn mctx (L.ln3 qg)
    L.feed_forward (L.drop mid + q)) 0 xs

/-- One decoder layer at a single step in cache mode: the cache is extended by
the normalized current input; the `dec_mask` built from the one-token target
(pad indicator of the current token, broadcast over all cached key positions)
either masks nothing or everything. -/
def layerForwardStep {V : Type u} [Add V] (L : LayerSem V) (gctx mctx : List V)
    (curPad : Bool) (cache : List V) (x : V) : V × List V :=
  let xn := L.ln1 x
  let cache2 := cache ++ [xn]
  let keys := if curPad then [] else cache2
  let q := L.drop (L.self_attn keys xn) + x
  let qg := L.drop (L.graph_attn gctx (L.ln2 q)) + q
  let mid := L.context_attn mctx (L.ln3 qg)
  (L.feed_forward (L.drop mid + q), cache2)

/-- Threading one step through the whole layer stack, updating each layer's
cache. -/
def stackStep {V : Type u} [Add V] (gctx mctx : List V) (curPad : Bool) :
    List (LayerSem V) → List (List V) → V → V × List (List V)
  | [], _, x => (x, [])
  | _ :: _, [], x => (x, [])
  | L :: Ls, c :: cs, x =>
    let r := layerForwardStep L gctx mctx curPad c x
    let t := stackStep gctx mctx curPad Ls cs r.1
    (t.1, r.2 :: t.2)

/-- The layer stack over a whole target sequence (non-incremental). -/
def stackFull {V : Type u} [Add V] (pads : List Bool) (gctx mctx : List V) :
    List (LayerSem V) → List V → List V
  | [], xs => xs
  | L :: Ls, xs => stackFull pads gctx mctx Ls (layerForwardFull L pads gctx mctx xs)

/-- Embedding plus positional encoding of the target tokens; position `i`
receives the positional vector for index `i` (in a full pass the step offset
is zero). -/
def embSeq {V : Type u} [Add V] (embed pe : Nat → V) (tgt : List Nat) : List V :=
  mapWithIndex (fun i tok => embed tok + pe i) 0 tgt

/-- A full non-incremental forward pass of `TransformerDecoderWithGraph` over a
target prefix with a fresh no-cache state: embed, run all layers with the
causal/pad mask, final layer norm. `gctx`/`mctx` are the graph and document
memory banks already filtered by their (position-independent) pad masks. -/
def fullDecode {V : Type u} [Add V] (Ls : List (LayerSem V)) (lnF : V → V)
    (embed pe : Nat → V) (padding_idx : Nat) (gctx mctx : List V)
    (tgt : List Nat) : List V :=
  let pads := tgt.map (fun tok => tok == padding_idx)
  (stackFull pads gctx mctx Ls (embSeq embed pe tgt)).map lnF

/-- Incremental decoding: consume the remaining tokens one at a time with the
per-layer caches, emitting one final-normalized output per step. `t` is the
current step index (positional-encoding offset). -/
def stepDecodeAux {V : Type u} [Add V] (Ls : List (LayerSem V)) (lnF : V → V)
    (embed pe : Nat → V) (padding_idx : Nat) (gctx mctx : List V) :
    List Nat → Nat → List (List V) → List V
  | [], _, _ => []
  | tok :: rest, t, caches =>
    let x := embed tok + pe t
    let r := stackStep gctx mctx (tok == padding_idx) Ls caches x
    lnF r.1 :: stepDecodeAux Ls lnF embed pe padding_idx gctx mctx rest (t + 1) r.2

/-- Decoding a target prefix one token at a time through a cache-initialized
state: every layer's cache starts with all-null slots. -/
def stepDecode {V : Type u} [Add V] (Ls : List (LayerSem V)) (lnF : V → V)
    (embed pe : Nat → V) (padding_idx : Nat) (gctx mctx : List V)
    (tgt : List Nat) : List V :=
  stepDecodeAux Ls lnF embed pe padding_idx gctx mctx tgt 0 (List.replicate Ls.length [])

/-- Per-layer cache contents that the incremental decode should hold after `t`
steps: for each layer, the normalized first `t` inputs of that layer in the
full pass. -/
def cachesAt {V : Type u} [Add V] (pads : List Bool) (gctx mctx : List V) :
    List (LayerSem V) → List V → Nat → List (List V)
  | [], _, _ => []
  | L :: Ls, xs, t =>
    (xs.take t).map L.ln1 :: cachesAt pads gctx mctx Ls (layerForwardFull L pads gctx mctx xs) t

/-! ## Loss engine (src/src/models/loss.py)

Arithmetic is over `ℚ`; `expf`/`logf` stand for the real `exp`/`log` (only
the structural identities the code relies on, such as `log 1 = 0`, appear as
hypotheses). -/

/-- Elementwise product of two matrices. -/
def hadamard (a b : List (List ℚ)) : List (List ℚ) :=
  List.zipWith (List.zipWith (· * ·)) a b

/-- `torch.sum(m, 1)` on one batch element of a `[nn, nn]` matrix: sum over the
row index, producing one value per column. -/
def sumDim1 : List (List ℚ) → List ℚ
  | [] => []
  | [r] => r
  | r :: rs => List.zipWith (· + ·) r (sumDim1 rs)

/-- `t.mean()` of a `[b, n]` tensor: sum of all entries over their count. -/
def matMean (m : List (List ℚ)) : ℚ :=
  (m.map List.sum).sum / ((m.map List.length).sum : ℚ)

/-- `t.mean()` of a 1-D tensor. -/
def listMean (l : List ℚ) : ℚ := l.sum / (l.length : ℚ)

/-- `x_dis = torch.exp(tau * x_dis)` elementwise, one batch element. -/
def ncontrastExp (expf : ℚ → ℚ) (tau : ℚ) (x_dis : List (List ℚ)) : List (List ℚ) :=
  x_dis.map (fun row => row.map (fun v => expf (tau * v)))

/-- `x_dis_sum = torch.sum(x_dis * mask_graph, 1)`, one batch element: the
masked normalizer of each position. -/
def ncontrastNormalizer (expf : ℚ → ℚ) (tau : ℚ)
    (x_dis mask_graph : List (List ℚ)) : List ℚ :=
  sumDim1 (hadamard (ncontrastExp expf tau x_dis) mask_graph)

/-- `x_dis_sum_pos = torch.sum(x_dis * adj_label, 1)`, one batch element. -/
def ncontrastPosSum (expf : ℚ → ℚ) (tau : ℚ)
    (x_dis adj_label : List (List ℚ)) : List ℚ :=
  sumDim1 (hadamard (ncontrastExp expf tau x_dis) adj_label)

/-- The `-log` terms of `NMTLossCompute._ncontrast` (lines 232-248) for one
batch element: the zero-sum guard replaces a zero normalizer by 1 before
inverting, and forces the ratio itself to 1 wherever the normalizer was
zero. -/
def ncontrastTerms (expf logf : ℚ → ℚ) (tau : ℚ)
    (x_dis adj_label mask_graph : List (List ℚ)) : List ℚ :=
  let s := ncontrastNormalizer expf tau x_dis mask_graph
  let sp := ncontrastPosSum expf tau x_dis adj_label
  let reverse := s.map (fun v => (if v = 0 then 1 else v)⁻¹)
  let cum_prod := List.zipWith (· * ·) sp reverse
  let cum_prod := List.zipWith (fun sv cv => if sv = (0 : ℚ) then 1 else cv) s cum_prod
  cum_prod.map (fun c => -(logf c))

/-- `NMTLossCompute._ncontrast`: mean of all `-log` terms over the batch. -/
def ncontrast (expf logf : ℚ → ℚ) (tau : ℚ)
    (x_dis adj_label mask_graph : List (List (List ℚ))) : ℚ :=
  matMean ((x_dis.zip (adj_label.zip mask_graph)).map
    (fun t => ncontrastTerms expf logf tau t.1 t.2.1 t.2.2))

/-- Per-row negative log likelihood of `nn.NLLLoss(ignore_index=padding_idx,
reduction='sum')`: zero on padding targets, otherwise minus the score of the
target class. -/
def nllRowLoss (padding_idx : Nat) (scores : List ℚ) (t : Nat) : ℚ :=
  if t = padding_idx then 0 else -(scores.getD t 0)

/-- `self.criterion(scores, gtruth)` over the bottled output: apply the
generator to every hidden row and sum the per-row NLL against the flattened
target. -/
def nllLoss (gen : List ℚ → List ℚ) (padding_idx : Nat)
    (output : List (List (List ℚ))) (target : List (List Nat)) : ℚ :=
  ((output.flatten.zip target.flatten).map
    (fun p => nllRowLoss padding_idx (gen p.1) p.2)).sum

/-- `nn.CrossEntropyLoss(reduction='none')` of one row against class 1 (the
all-ones label tensor): `log (Σ exp row) - row[1]`. -/
def ceRowAgainstOne (expf logf : ℚ → ℚ) (row : List ℚ) : ℚ :=
  logf (row.map expf).sum - row.getD 1 0

/-- The document-word contrastive loss (loss.py lines 258-263): cross entropy
of each reshaped similarity row against label 1, masked by the flattened
source mask, then averaged. -/
def docWordContraLoss (expf logf : ℚ → ℚ)
    (doc_word_cos_sim : List (List (List ℚ))) (mask_src : List (List ℚ)) : ℚ :=
  listMean (List.zipWith (fun row m => ceRowAgainstOne expf logf row * m)
    doc_word_cos_sim.flatten mask_src.flatten)

/-- `seq_len_to_mask` followed by the row/column tiling of loss.py lines
278-281: `mask_graph[b][i][j] = (i < node_num[b]) * (j < node_num[b])`. -/
def nodeMaskGraph (nn : Nat) (node_num : List Nat) : List (List (List ℚ)) :=
  node_num.map (fun m => (List.range nn).map (fun i => (List.range nn).map
    (fun j => if i < m ∧ j < m then (1 : ℚ) else 0)))

/-- The shard-state mapping built by `NMTLossCompute._make_shard_state`
(per-example values along the batch axis; the two similarity fields are
`None` when contrastive inputs are not supplied). -/
structure ShardState where
  output : List (List (List ℚ))
  target : List (List Nat)
  mask_src : List (List ℚ)
  node_num : List Nat
  graph : List (List (List ℚ))
  cos_sim : Option (List (List (List ℚ)))
  doc_word_cos_sim : Option (List (List (List ℚ)))

/-- `NMTLossCompute._compute_loss` (lines 250-299), returning the scalar
`loss` (criterion + document-word contrastive + graph contrastive). The
source reads `doc_word_cos_sim` only under `cos_sim is not None`, and the two
are supplied together; the model treats the pair as jointly present. -/
def compute_loss (gen : List ℚ → List ℚ) (padding_idx : Nat)
    (expf logf : ℚ → ℚ) (st : ShardState) : ℚ :=
  let loss := nllLoss gen padding_idx st.output st.target
  match st.cos_sim, st.doc_word_cos_sim with
  | some cos_sim, some doc_word => 
    let doc_word_contra_loss := docWordContraLoss expf logf doc_word st.mask_src
    let nn := (cos_sim.getD 0 []).length
    let mask_graph := nodeMaskGraph nn st.node_num
    let contra_loss := ncontrast expf logf 1 cos_sim st.graph mask_graph
    loss + doc_word_contra_loss + contra_loss
  | _, _ => loss

/-- The first `sz` examples of every field (`torch.split`'s leading chunk). -/
def takeShard (sz : Nat) (st : ShardState) : ShardState :=
  ⟨st.output.take sz, st.target.take sz, st.mask_src.take sz, st.node_num.take sz,
    st.graph.take sz, st.cos_sim.map (fun v => v.take sz),
    st.doc_word_cos_sim.map (fun v => v.take sz)⟩

/-- Every field with its first `sz` examples removed. -/
def dropShard (sz : Nat) (st : ShardState) : ShardState :=
  ⟨st.output.drop sz, st.target.drop sz, st.mask_src.drop sz, st.node_num.drop sz,
    st.graph.drop sz, st.cos_sim.map (fun v => v.drop sz),
    st.doc_word_cos_sim.map (fun v => v.drop sz)⟩

/-- The shards yielded by `shards(shard_state, shard_size)`: contiguous chunks
of `shard_size` examples along the batch axis, the last chunk possibly
smaller. (`torch.split` requires a positive split size; a size of 0 is
normalized to 1 here.) -/
def shardChunks (sz : Nat) (st : ShardState) : List ShardState :=
  match h : st.output with
  | [] => []
  | _ :: _ => takeShard (max 1 sz) st :: shardChunks sz (dropShard (max 1 sz) st)
termination_by st.output.length
decreasing_by
  simp only [dropShard, List.length_drop]
  rw [h]
  simp only [List.length_cons]
  omega

/-- The loss computed by `sharded_compute_loss`, summed across all shards:
each shard makes its own `_compute_loss` call. -/
def shardedLossSum (gen : List ℚ → List ℚ) (padding_idx : Nat)
    (expf logf : ℚ → ℚ) (sz : Nat) (st : ShardState) : ℚ :=
  ((shardChunks sz st).map (compute_loss gen padding_idx expf logf)).sum

/-! ## Tail of `shards()` (loss.py lines 358-368): the final backward pass -/

/-- One non-None shard-state field as it stands at the end of `shards()`:
whether the original tensor requires grad, the chunks of the original tensor
(`torch.split(state[k], shard_size)`), and each cloned chunk's accumulated
gradient (`v_chunk.grad`, `None` when that chunk's gradient was never
touched). `ι` is the type of input chunks, `G` of gradients. -/
structure ShardFieldEnd (G : Type u) (ι : Type v) where
  requires_grad : Bool
  inputChunks : List ι
  chunkGrads : List (Option G)

/-- The `variables` list built by the loop at the end of `shards()`: for every
gradient-requiring field, the original tensor's chunks zipped with the
accumulated per-chunk gradients, concatenated in field order. -/
def shardsVariables {G : Type u} {ι : Type v} (fields : List (ShardFieldEnd G ι)) :
    List (ι × Option G) :=
  ((fields.filter (fun f => f.requires_grad)).map
    (fun f => f.inputChunks.zip f.chunkGrads)).flatten

/-- The end of `shards()`: `inputs, grads = zip(*variables)` raises when
`variables` is empty; otherwise `torch.autograd.backward(inputs, grads)` runs
only `if None not in grads`, and nothing is raised, warned or logged when it
is skipped. The result is `.error` for the unpack exception, otherwise
`.ok (warnings, backwardCall?)` where the warning list is always empty and
`none` means the final backward pass was skipped. -/
def shardsBackwardEnd {G : Type u} {ι : Type v} (fields : List (ShardFieldEnd G ι)) :
    Except String (List String × Option (List ι × List G)) :=
  let vars := shardsVariables fields
  match vars with
  | [] => .error "not enough values to unpack"
  | v =>
    if v.any (fun p => p.2.isNone) then .ok ([], none)
    else .ok ([], some (v.map Prod.fst, v.filterMap Prod.snd))

/-! ## Claim theorems: decoder state -/

/-- C10: `update_state(new_input, layer_inputs)` returns a new state keeping the
receiver's `src` and `g_src`, with `previous_input = new_input`,
`previous_layer_inputs = layer_inputs` and `cache = None`; the embedding being a
pure function of the receiver, the receiver itself is unmodified. -/
theorem update_state_frame {τ : Type u} (s : TransformerDecoderState τ)
    (new_input layer_inputs : τ) :
    s.update_state new_input layer_inputs =
      { src := s.src, g_src := s.g_src, previous_input := some new_input,
        previous_layer_inputs := some layer_inputs, cache := none } := rfl

/-- C7: `repeat_beam_size_times(beam_size)` assigns to `src` the original
`src`'s data repeated `beam_size` times along the batch axis, and builds
`g_src` from the (just reassigned) source tensor's data — independent of the
state's own `g_src` — so `g_src` ends up as the original `src` repeated
`beam_size` times twice. -/
theorem repeat_beam_size_times_spec (s : TransformerDecoderState (List (List Int)))
    (beam_size : Nat) :
    (s.repeat_beam_size_times beam_size).src = repeatBeamData beam_size s.src ∧
    (s.repeat_beam_size_times beam_size).g_src =
      repeatBeamData beam_size (repeatBeamData beam_size s.src) ∧
    (∀ g' : List (List Int),
      (TransformerDecoderState.repeat_beam_size_times { s with g_src := g' } beam_size).g_src =
        (s.repeat_beam_size_times beam_size).g_src) :=
  ⟨rfl, rfl, fun _ => rfl⟩

/-- A cache-mode state whose layer-0 cache record holds a graph-attached
tensor in its `self_keys` slot. -/
def detachCacheState : TransformerDecoderState ATensor :=
  { src := ⟨1, true⟩, g_src := ⟨2, true⟩, previous_input := none,
    previous_layer_inputs := none,
    cache := some [("layer_0",
      { emptyLayerCacheRec ATensor with self_keys := some ⟨5, true⟩ })] }

/-- C6 counterexample: after `detach`, the non-None `self_keys` tensor stored
in the cache record of a cache-mode state is still attached to the autograd
graph — `detach` does not detach the cache's tensors. -/
theorem detach_cache_tensor_still_attached :
    ((detachCacheState.detach.cache.getD []).getD 0
        ("", emptyLayerCacheRec ATensor)).2.self_keys = some ⟨5, true⟩ ∧
    (⟨5, true⟩ : ATensor).attached = true := by
  constructor <;> rfl

/-- C6 amended: `detach` detaches `src`, `g_src` and, when present,
`previous_input` and `previous_layer_inputs` (each replaced by its detached
value, whose attached flag is false), but leaves the `cache` field — and hence
every tensor stored in the per-layer cache records — untouched. -/
theorem detach_spec (s : TransformerDecoderState ATensor) :
    s.detach.src = s.src.detach ∧
    s.detach.g_src = s.g_src.detach ∧
    s.detach.previous_input = s.previous_input.map ATensor.detach ∧
    s.detach.previous_layer_inputs = s.previous_layer_inputs.map ATensor.detach ∧
    s.detach.cache = s.cache ∧
    (∀ t : ATensor, t.detach.attached = false) :=
  ⟨rfl, rfl, rfl, rfl, rfl, fun _ => rfl⟩

/-! ## Claim theorems: decoder layer wiring -/

/-- A concrete instantiation of the layer's capabilities over integer-valued
tensors, on which the self-attention and graph-attention sublayer outputs
differ. -/
def c1Fns : DecoderLayerFns Int Unit Unit where
  layer_norm_1 := id
  layer_norm_2 := id
  layer_norm_3 := id
  self_attn := fun _ _ q _ _ => q
  graph_attn := fun _ _ q _ _ => q + 1
  context_attn := fun _ _ q _ _ => q
  feed_forward := id
  drop := id
  cat := fun a b => a + b
  dec_mask0 := id

/-- C1 counterexample: the layer's output is `feed_forward (drop mid + query)`
(`query` the self-attention sublayer output, source line 98), which differs
from `feed_forward (drop mid + query_g)` — the value the claim asserts — on a
concrete instantiation where the two sublayer outputs differ. -/
theorem layer_ff_residual_counterexample :
    (TransformerDecoderLayer.forward c1Fns 0 0 0 () () () none none).1 ≠
      c1Fns.feed_forward (c1Fns.drop
        (layerMid c1Fns 0 0 0 () () () none none) +
        layerQueryG c1Fns 0 0 () () none none) := by
  decide

/-- C1 amended: in every forward pass of a decoder layer, the feed-forward
sublayer consumes `dropout (document-attention output) + query` where `query`
is the *self-attention* sublayer output (not the graph-attention sublayer
output `query_g`, which enters only through the normalized query of the
document attention). -/
theorem layer_ff_residual_spec {T : Type u} {M : Type v} {C : Type w} [Add T]
    (F : DecoderLayerFns T M C) (inputs memory_bank g_memory : T)
    (src_pad_mask g_memory_mask tgt_pad_mask : M)
    (previous_input : Option T) (layer_cache : Option C) :
    (TransformerDecoderLayer.forward F inputs memory_bank g_memory src_pad_mask
        g_memory_mask tgt_pad_mask previous_input layer_cache).1 =
      F.feed_forward (F.drop
        (layerMid F inputs memory_bank g_memory src_pad_mask g_memory_mask
          tgt_pad_mask previous_input layer_cache) +
        layerQuery F inputs tgt_pad_mask previous_input layer_cache) := rfl

/-! ## Claim theorems: state-machine invariant -/

/-- C8: every state reachable via the initializer (with or without cache),
via `update_state`, or as the state returned by a decoder stack forward pass
never has a history field (`previous_input`/`previous_layer_inputs`) and the
`cache` simultaneously non-None; and a freshly constructed state without cache
has `previous_input`, `previous_layer_inputs` and `cache` all None. -/
theorem reachable_state_invariant {τ : Type u} (num_layers : Nat) :
    (∀ s : TransformerDecoderState τ, ReachableState τ num_layers s →
      ¬((s.previous_input.isSome ∨ s.previous_layer_inputs.isSome) ∧ s.cache.isSome)) ∧
    (∀ src g_src : τ, init_decoder_state num_layers src g_src false =
      ⟨src, g_src, none, none, none⟩) := by
  constructor
  · intro s hs
    induction hs with
    | init src g_src wc =>
      cases wc <;>
        simp [init_decoder_state, TransformerDecoderState.init,
          TransformerDecoderState.init_cache]
    | update s n l _ _ =>
      simp [TransformerDecoderState.update_state, TransformerDecoderState.init]
    | fwd s tgt saved f _ ih =>
      unfold forwardState
      cases hc : s.cache with
      | none =>
        simp [TransformerDecoderState.update_state, TransformerDecoderState.init]
      | some c =>
        rw [hc] at ih
        simp only [Option.isSome_some, and_true] at ih
        simpa using ih
  · intro src g_src
    rfl

/-- C8 witness: the invariant instantiated on the concrete reachable state
obtained by initializing without cache and applying `update_state`. -/
theorem reachable_state_invariant_witness :
    ¬((((init_decoder_state 2 (0 : Int) 0 false).update_state 1 2).previous_input.isSome ∨
        ((init_decoder_state 2 (0 : Int) 0 false).update_state 1 2).previous_layer_inputs.isSome) ∧
      ((init_decoder_state 2 (0 : Int) 0 false).update_state 1 2).cache.isSome) :=
  (reachable_state_invariant (τ := Int) 2).1 _
    (ReachableState.update _ 1 2 (ReachableState.init 0 0 false))

/-! ## Claim theorems: shards() final backward pass -/

theorem zip_mem_none {G : Type u} {ι : Type v} :
    ∀ (as : List ι) (bs : List (Option G)), as.length = bs.length →
      none ∈ bs → ∃ a, (a, (none : Option G)) ∈ as.zip bs := by
  intro as
  induction as with
  | nil => intro bs hl hm; cases bs with
    | nil => simp at hm
    | cons b bs' => simp at hl
  | cons a as' ih =>
    intro bs hl hm
    cases bs with
    | nil => simp at hm
    | cons b bs' =>
      rcases List.mem_cons.mp hm with hb | hb
      · exact ⟨a, by simp [hb.symm]⟩
      · obtain ⟨a', ha'⟩ := ih bs' (by simpa using hl) hb
        exact ⟨a', by simp [ha']⟩

/-- C5: at the end of sharded loss computation, if some gradient-requiring
shard-state field has a missing (None) accumulated per-chunk gradient, the
final backward pass from the original unsharded tensors is skipped entirely
and silently: the result is a normal return (no exception) with no warnings
and no backward call. -/
theorem shards_missing_grad_skips_backward {G : Type u} {ι : Type v}
    (fields : List (ShardFieldEnd G ι)) (f : ShardFieldEnd G ι)
    (hf : f ∈ fields) (hrg : f.requires_grad = true)
    (hmiss : none ∈ f.chunkGrads)
    (hlen : ∀ g ∈ fields, g.inputChunks.length = g.chunkGrads.length) :
    shardsBackwardEnd fields = .ok ([], none) := by
  obtain ⟨a, ha⟩ := zip_mem_none f.inputChunks f.chunkGrads (hlen f hf) hmiss
  have hmem : (a, (none : Option G)) ∈ shardsVariables fields := by
    unfold shardsVariables
    rw [List.mem_flatten]
    exact ⟨f.inputChunks.zip f.chunkGrads,
      List.mem_map_of_mem _ (List.mem_filter.mpr ⟨hf, hrg⟩), ha⟩
  unfold shardsBackwardEnd
  cases hv : shardsVariables fields with
  | nil => rw [hv] at hmem; simp at hmem
  | cons p ps =>
    rw [hv] at hmem
    have hany : (p :: ps).any (fun q => q.2.isNone) = true :=
      List.any_eq_true.mpr ⟨(a, none), hmem, rfl⟩
    simp only [hany, if_true]

/-- C5 witness: a single gradient-requiring field whose only chunk gradient is
missing makes the final backward step fall through silently. -/
theorem shards_missing_grad_skips_backward_witness :
    ((⟨true, [(0 : Int)], [(none : Option Int)]⟩ : ShardFieldEnd Int Int) ∈
        [(⟨true, [(0 : Int)], [(none : Option Int)]⟩ : ShardFieldEnd Int Int)]) ∧
    shardsBackwardEnd [(⟨true, [(0 : Int)], [(none : Option Int)]⟩ : ShardFieldEnd Int Int)] =
      .ok ([], none) :=
  ⟨List.mem_singleton.mpr rfl,
    shards_missing_grad_skips_backward
      [(⟨true, [(0 : Int)], [(none : Option Int)]⟩ : ShardFieldEnd Int Int)]
      (⟨true, [(0 : Int)], [(none : Option Int)]⟩ : ShardFieldEnd Int Int)
      (List.mem_singleton.mpr rfl) rfl (List.mem_singleton.mpr rfl)
      (by intro g hg; rw [List.mem_singleton] at hg; rw [hg]; rfl)⟩

/-! ## Claim theorems: causal mask -/

theorem getD_take_of_lt {α : Type u} (d : α) :
    ∀ (l : List α) (n i : Nat), i < n → (l.take n).getD i d = l.getD i d := by
  intro l
  induction l with
  | nil => intro n i _; simp
  | cons a as ih =>
    intro n i hi
    cases n with
    | zero => exact absurd hi (by simp)
    | succ m =>
      cases i with
      | zero => simp
      | succ j => simpa using ih m j (Nat.lt_of_succ_lt_succ hi)

theorem getD_range_of_lt (n i d : Nat) (h : i < n) : (List.range n).getD i d = i := by
  rw [List.getD_eq_getElem (List.range n) d (by simpa using h)]
  exact List.getElem_range i _

/-- C9: with `previous_input` None, `dec_mask[i][j]` is true exactly when
target position `j` is padding or `j > i` (the OR of the target padding mask
with the strict upper-triangular subsequent mask precomputed at `MAX_SIZE =
5000`); and with `previous_input` non-None, the mask handed to self attention
is None, skipping causal masking. -/
theorem dec_mask_entry_spec {T : Type u} {M : Type v}
    (padding_idx : Nat) (tgt_row : List Nat) (i j : Nat) (p : T) (dm : Option M)
    (hi : i < tgt_row.length) (hj : j < tgt_row.length)
    (hL : tgt_row.length ≤ MAX_SIZE) :
    ((dec_mask_mat padding_idx tgt_row).getD i []).getD j false =
      ((tgt_row.getD j 0 == padding_idx) || decide (j > i)) ∧
    layerSelfAttnMask (some p) dm = none := by
  constructor
  · have hiL : i < MAX_SIZE := Nat.lt_of_lt_of_le hi hL
    have hjL : j < MAX_SIZE := Nat.lt_of_lt_of_le hj hL
    have hlen1 : i < (tgt_pad_mask_mat padding_idx tgt_row).length := by
      simpa [tgt_pad_mask_mat] using hi
    have hlen2 : i < (sliceMat (attn_subsequent_mask MAX_SIZE) tgt_row.length).length := by
      simp only [sliceMat, attn_subsequent_mask, List.length_map, List.length_take,
        List.length_range]
      omega
    rw [dec_mask_mat, getD_zipWith _ [] [] [] _ _ i hlen1 hlen2]
    have hrow1 : (tgt_pad_mask_mat padding_idx tgt_row).getD i [] =
        tgt_row.map (fun t => t == padding_idx) := by
      rw [tgt_pad_mask_mat, getD_map _ [] 0 tgt_row i hi]
    have hrow2 : (sliceMat (attn_subsequent_mask MAX_SIZE) tgt_row.length).getD i [] =
        ((List.range MAX_SIZE).map (fun k => if k > i then 1 else 0)).take tgt_row.length := by
      rw [sliceMat, getD_map _ [] []]
      · rw [attn_subsequent_mask, getD_take_of_lt _ _ _ _ hi,
          getD_map _ [] 0 _ i (by simpa using hiL), getD_range_of_lt _ _ _ hiL]
      · simp only [attn_subsequent_mask, List.length_take, List.length_map,
          List.length_range]
        omega
    rw [hrow1, hrow2,
      getD_zipWith _ false false 0 _ _ j (by simpa using hj)
        (by simp only [List.length_take, List.length_map, List.length_range]; omega),
      getD_map _ false 0 _ j hj, getD_take_of_lt _ _ _ _ hj,
      getD_map _ 0 0 _ j (by simpa using hjL), getD_range_of_lt _ _ _ hjL]
    cases hb : tgt_row.getD j 0 == padding_idx <;> by_cases hc : j > i <;>
      simp [hb, hc]
  · rfl

/-- C9 witness: concrete target row `[3, 0, 4]` with padding index 0, entry
`(i, j) = (1, 2)`. -/
theorem dec_mask_entry_spec_witness :
    (1 < 3 ∧ 2 < 3 ∧ 3 ≤ MAX_SIZE) ∧
    (((dec_mask_mat 0 [3, 0, 4]).getD 1 []).getD 2 false =
      (([3, 0, 4].getD 2 0 == 0) || decide (2 > 1)) ∧
    layerSelfAttnMask (some ()) (none : Option Unit) = none) :=
  ⟨⟨by decide, by decide, by decide⟩,
    dec_mask_entry_spec 0 [3, 0, 4] 1 2 () none (by decide) (by decide) (by decide)⟩

/-! ## Claim theorems: Ncontrast zero-normalizer guard -/

/-- C4: in the Ncontrast loss, any position whose masked normalizer sum is
zero contributes a term of exactly 0 to the averaged loss (its guarded ratio
is forced to 1 and `-log 1 = 0`), for arbitrary similarity and adjacency
values at that position. -/
theorem ncontrast_zero_normalizer_term (expf logf : ℚ → ℚ) (tau : ℚ)
    (x_dis adj_label mask_graph : List (List ℚ)) (j : Nat)
    (hlog : logf 1 = 0)
    (hj : j < (ncontrastNormalizer expf tau x_dis mask_graph).length)
    (hjp : j < (ncontrastPosSum expf tau x_dis adj_label).length)
    (hzero : (ncontrastNormalizer expf tau x_dis mask_graph).getD j 0 = 0) :
    (ncontrastTerms expf logf tau x_dis adj_label mask_graph).getD j 0 = 0 := by
  unfold ncontrastTerms
  set s := ncontrastNormalizer expf tau x_dis mask_graph with hs
  set sp := ncontrastPosSum expf tau x_dis adj_label with hsp
  have hrev : (s.map (fun v => (if v = (0 : ℚ) then 1 else v)⁻¹)).length = s.length :=
    List.length_map _ _
  have hcum : j < (List.zipWith (· * ·) sp
      (s.map (fun v => (if v = (0 : ℚ) then 1 else v)⁻¹))).length := by
    rw [List.length_zipWith, hrev]
    omega
  have hcum2 : j < (List.zipWith (fun sv cv => if sv = (0 : ℚ) then 1 else cv) s
      (List.zipWith (· * ·) sp
        (s.map (fun v => (if v = (0 : ℚ) then 1 else v)⁻¹)))).length := by
    rw [List.length_zipWith]
    rw [List.length_zipWith, hrev]
    omega
  rw [getD_map _ 0 1 _ j hcum2]
  rw [getD_zipWith _ 1 0 0 _ _ j hj hcum]
  simp only [List.getD_eq_getElem?_getD] at hzero
  simp [hzero, hlog]

/-- C4 witness: a one-node similarity matrix with an all-zero mask row; with
`logf = (· - 1)` (so that `logf 1 = 0`) the term is exactly 0. -/
theorem ncontrast_zero_normalizer_term_witness :
    ((fun x : ℚ => x - 1) 1 = 0 ∧
     0 < (ncontrastNormalizer id 1 [[5]] [[0]]).length ∧
     0 < (ncontrastPosSum id 1 [[5]] [[3]]).length ∧
     (ncontrastNormalizer id 1 [[5]] [[0]]).getD 0 0 = 0) ∧
    (ncontrastTerms id (fun x : ℚ => x - 1) 1 [[5]] [[3]] [[0]]).getD 0 0 = 0 :=
  ⟨⟨by norm_num,
    by norm_num [ncontrastNormalizer, ncontrastExp, hadamard, sumDim1],
    by norm_num [ncontrastPosSum, ncontrastExp, hadamard, sumDim1],
    by norm_num [ncontrastNormalizer, ncontrastExp, hadamard, sumDim1]⟩,
   ncontrast_zero_normalizer_term id (fun x : ℚ => x - 1) 1 [[5]] [[3]] [[0]] 0
     (by norm_num)
     (by norm_num [ncontrastNormalizer, ncontrastExp, hadamard, sumDim1])
     (by norm_num [ncontrastPosSum, ncontrastExp, hadamard, sumDim1])
     (by norm_num [ncontrastNormalizer, ncontrastExp, hadamard, sumDim1])⟩

/-! ## Claim theorems: sharded vs monolithic loss -/

theorem zip_take_take {α : Type u} {β : Type v} :
    ∀ (l : List α) (m : List β) (n : Nat), (l.take n).zip (m.take n) = (l.zip m).take n := by
  intro l
  induction l with
  | nil => intro m n; simp
  | cons a as ih =>
    intro m n
    cases m with
    | nil => simp
    | cons b bs =>
      cases n with
      | zero => simp
      | succ k => simp [ih bs k]

theorem zip_drop_drop {α : Type u} {β : Type v} :
    ∀ (l : List α) (m : List β) (n : Nat), (l.drop n).zip (m.drop n) = (l.zip m).drop n := by
  intro l
  induction l with
  | nil => intro m n; simp
  | cons a as ih =>
    intro m n
    cases m with
    | nil => simp
    | cons b bs =>
      cases n with
      | zero => simp
      | succ k => simp [ih bs k]

/-- The criterion loss contributed by one batch example: its rows zipped with
its targets. -/
def exampleNll (gen : List ℚ → List ℚ) (padding_idx : Nat)
    (p : List (List ℚ) × List Nat) : ℚ :=
  ((p.1.zip p.2).map (fun q => nllRowLoss padding_idx (gen q.1) q.2)).sum

theorem nllLoss_eq_exampleNllSum (gen : List ℚ → List ℚ) (padding_idx : Nat) :
    ∀ (os : List (List (List ℚ))) (ts : List (List Nat)),
      os.length = ts.length →
      (∀ p ∈ os.zip ts, (Prod.fst p).length = (Prod.snd p).length) →
      nllLoss gen padding_idx os ts = ((os.zip ts).map (exampleNll gen padding_idx)).sum := by
  intro os
  induction os with
  | nil =>
    intro ts hl _
    cases ts with
    | nil => simp [nllLoss]
    | cons t ts' => simp at hl
  | cons o os' ih =>
    intro ts hl hrow
    cases ts with
    | nil => simp at hl
    | cons t ts' =>
      have hot : o.length = t.length := hrow (o, t) (by simp)
      simp only [nllLoss, List.flatten_cons]
      rw [List.zip_append hot, List.map_append, List.sum_append]
      have htail : nllLoss gen padding_idx os' ts' =
          ((os'.zip ts').map (exampleNll gen padding_idx)).sum := by
        refine ih ts' (by simpa using hl) ?_
        intro p hp
        exact hrow p (by simp [hp])
      simp only [nllLoss] at htail
      rw [htail]
      simp [exampleNll]

/-- With no contrastive similarity inputs, `_compute_loss` is the criterion
loss alone. -/
theorem compute_loss_of_cos_none (gen : List ℚ → List ℚ) (padding_idx : Nat)
    (expf logf : ℚ → ℚ) (st : ShardState) (hcos : st.cos_sim = none) :
    compute_loss gen padding_idx expf logf st = nllLoss gen padding_idx st.output st.target := by
  unfold compute_loss
  rw [hcos]

theorem shardChunks_nil (sz : Nat) (st : ShardState) (h : st.output = []) :
    shardChunks sz st = [] := by
  rw [shardChunks]
  split
  · rfl
  · rename_i heq
    rw [h] at heq
    exact absurd heq (by simp)

theorem shardChunks_cons (sz : Nat) (st : ShardState) (h : st.output ≠ []) :
    shardChunks sz st =
      takeShard (max 1 sz) st :: shardChunks sz (dropShard (max 1 sz) st) := by
  rw [shardChunks]
  split
  · rename_i heq
    exact absurd heq h
  · rfl

theorem shardedLossSum_eq_exSum (gen : List ℚ → List ℚ) (padding_idx : Nat)
    (expf logf : ℚ → ℚ) (sz : Nat) :
    ∀ (n : Nat) (st : ShardState), st.output.length ≤ n →
      st.cos_sim = none →
      st.target.length = st.output.length →
      (∀ p ∈ st.output.zip st.target, (Prod.fst p).length = (Prod.snd p).length) →
      shardedLossSum gen padding_idx expf logf sz st
        = ((st.output.zip st.target).map (exampleNll gen padding_idx)).sum := by
  intro n
  induction n with
  | zero =>
    intro st hn hcos hlen hrow
    have hout : st.output = [] := List.length_eq_zero.mp (Nat.le_zero.mp hn)
    rw [shardedLossSum, shardChunks_nil sz st hout, hout]
    simp
  | succ m ih =>
    intro st hn hcos hlen hrow
    by_cases hne : st.output = []
    case pos =>
      rw [shardedLossSum, shardChunks_nil sz st hne]
      simp [hne]
    case neg =>
      have hpos : 0 < st.output.length := List.length_pos.mpr hne
      rw [shardedLossSum, shardChunks_cons sz st hne]
      simp only [List.map_cons, List.sum_cons]
      have hkpos : 1 ≤ max 1 sz := Nat.le_max_left 1 sz
      have htake : compute_loss gen padding_idx expf logf (takeShard (max 1 sz) st) =
          (((st.output.zip st.target).take (max 1 sz)).map
            (exampleNll gen padding_idx)).sum := by
        rw [compute_loss_of_cos_none _ _ _ _ _ (by simp [takeShard, hcos])]
        rw [nllLoss_eq_exampleNllSum _ _ _ _ (by simp [takeShard, hlen])]
        · simp [takeShard, zip_take_take]
        · intro p hp
          simp only [takeShard] at hp
          rw [zip_take_take] at hp
          exact hrow p (List.mem_of_mem_take hp)
      have hdrop : shardedLossSum gen padding_idx expf logf sz (dropShard (max 1 sz) st) =
          (((st.output.zip st.target).drop (max 1 sz)).map
            (exampleNll gen padding_idx)).sum := by
        rw [ih (dropShard (max 1 sz) st)
          (by simp only [dropShard, List.length_drop]; omega)
          (by simp [dropShard, hcos])
          (by simp [dropShard, hlen])
          (by intro p hp
              simp only [dropShard] at hp
              rw [zip_drop_drop] at hp
              exact hrow p (List.mem_of_mem_drop hp))]
        simp [dropShard, zip_drop_drop]
      simp only [shardedLossSum] at hdrop
      rw [htake, hdrop]
      rw [← List.sum_append, ← List.map_append, List.take_append_drop]

/-- C3 amended: for every batch and every positive shard size (dividing the
batch evenly or not), the loss summed across all shards equals the loss of a
single monolithic `_compute_loss` call *when the contrastive similarity
inputs are absent*; when they are supplied the equality fails, because the two
contrastive terms are means over each shard, and per-shard means summed do not
reproduce the whole-batch mean. -/
theorem sharded_loss_sum_eq_monolithic (gen : List ℚ → List ℚ) (padding_idx : Nat)
    (expf logf : ℚ → ℚ) (sz : Nat) (st : ShardState)
    (hsz : 1 ≤ sz) (hcos : st.cos_sim = none)
    (hlen : st.target.length = st.output.length)
    (hrow : ∀ p ∈ st.output.zip st.target, (Prod.fst p).length = (Prod.snd p).length) :
    shardedLossSum gen padding_idx expf logf sz st
      = compute_loss gen padding_idx expf logf st := by
  rw [compute_loss_of_cos_none _ _ _ _ _ hcos,
    nllLoss_eq_exampleNllSum _ _ _ _ hlen.symm hrow]
  exact shardedLossSum_eq_exSum gen padding_idx expf logf sz st.output.length st
    (Nat.le_refl _) hcos hlen hrow

/-- Generator used in the sharded-loss counterexample (scores are irrelevant
because every target token is padding). -/
def c3Gen : List ℚ → List ℚ := fun _ => []

/-- A two-example batch with contrastive similarity inputs supplied. -/
def c3St : ShardState where
  output := [[[0]], [[0]]]
  target := [[0], [0]]
  mask_src := [[1], [1]]
  node_num := [0, 0]
  graph := [[[0]], [[0]]]
  cos_sim := some [[[0]], [[0]]]
  doc_word_cos_sim := some [[[2, 0]], [[4, 0]]]

/-- C3 counterexample: with the contrastive similarity inputs supplied, the
loss summed across shards of size 1 (4, since the per-shard contrastive means
add up) differs from the monolithic `_compute_loss` value (2, where the same
terms are averaged over the whole batch once). `expf`/`logf` are instantiated
with the identity. -/
theorem sharded_loss_counterexample :
    shardedLossSum c3Gen 0 id id 1 c3St ≠ compute_loss c3Gen 0 id id c3St := by
  have hchunks : shardChunks 1 c3St =
      [takeShard 1 c3St, takeShard 1 (dropShard 1 c3St)] := by
    rw [shardChunks_cons 1 c3St (by simp [c3St]),
      shardChunks_cons 1 _ (by simp [c3St, dropShard]),
      shardChunks_nil 1 _ (by simp [c3St, dropShard])]
    norm_num
  have hmono : compute_loss c3Gen 0 id id c3St = 2 := by
    simp only [compute_loss, c3St, nllLoss, nllRowLoss, docWordContraLoss,
      ceRowAgainstOne, listMean, ncontrast, ncontrastTerms, ncontrastNormalizer,
      ncontrastPosSum, ncontrastExp, hadamard, sumDim1, matMean, nodeMaskGraph,
      c3Gen, List.flatten, List.map, List.zipWith, List.zip, List.zipWith_cons_cons,
      List.sum_cons, List.sum_nil, List.range_succ, List.range_zero, List.length_cons,
      List.length_nil, List.getD]
    norm_num [sumDim1]
  have hsharded : shardedLossSum c3Gen 0 id id 1 c3St = 4 := by
    rw [shardedLossSum, hchunks]
    simp only [compute_loss, takeShard, dropShard, c3St, nllLoss, nllRowLoss,
      docWordContraLoss, ceRowAgainstOne, listMean, ncontrast, ncontrastTerms,
      ncontrastNormalizer, ncontrastPosSum, ncontrastExp, hadamard, sumDim1,
      matMean, nodeMaskGraph, c3Gen, List.flatten, List.map, List.zipWith,
      List.zip, List.zipWith_cons_cons, List.sum_cons, List.sum_nil,
      List.range_succ, List.range_zero, List.length_cons, List.length_nil,
      List.getD, List.take, List.drop]
    norm_num [sumDim1]
  rw [hmono, hsharded]
  norm_num

/-- A three-example batch with no contrastive inputs, sharded with size 2
(an uneven split). -/
def c3StNc : ShardState where
  output := [[[1]], [[2]], [[3]]]
  target := [[1], [2], [1]]
  mask_src := []
  node_num := []
  graph := []
  cos_sim := none
  doc_word_cos_sim := none

/-- C3 witness: the amended equality instantiated on a concrete three-example
batch with shard size 2 (which does not divide the batch evenly) and no
contrastive inputs. -/
theorem sharded_loss_sum_eq_monolithic_witness :
    (1 ≤ 2 ∧ c3StNc.cos_sim = none ∧
      c3StNc.target.length = c3StNc.output.length) ∧
    shardedLossSum c3Gen 0 id id 2 c3StNc = compute_loss c3Gen 0 id id c3StNc :=
  ⟨⟨by norm_num, rfl, rfl⟩,
    sharded_loss_sum_eq_monolithic c3Gen 0 id id 2 c3StNc (by norm_num) rfl rfl
      (by
        intro p hp
        simp only [c3StNc, List.zip_cons_cons, List.zip_nil_right,
          List.mem_cons, List.not_mem_nil, or_false] at hp
        rcases hp with h | h | h <;> simp [h])⟩

/-! ## Claim theorems: incremental decoding vs full pass -/

theorem filterMap_zip_take_all_false {V : Type u} :
    ∀ (keys : List V) (pads : List Bool) (j : Nat),
      pads.length = keys.length → (∀ p ∈ pads, p = false) →
      ((keys.zip pads).take j).filterMap
          (fun kp => if kp.2 then none else some kp.1) = keys.take j := by
  intro keys
  induction keys with
  | nil => intro pads j _ _; simp
  | cons k ks ih =>
    intro pads j hlen hf
    cases pads with
    | nil => simp at hlen
    | cons p ps =>
      have hp : p = false := hf p (by simp)
      cases j with
      | zero => simp
      | succ m =>
        simp only [List.zip_cons_cons, List.take_succ_cons, List.filterMap_cons, hp]
        rw [ih ps m (by simpa using hlen) (fun q hq => hf q (by simp [hq]))]
        simp

theorem maskedKeys_all_false {V : Type u} (pads : List Bool) (keys : List V) (i : Nat)
    (hlen : pads.length = keys.length) (hf : ∀ p ∈ pads, p = false) :
    maskedKeys pads keys i = keys.take (i + 1) :=
  filterMap_zip_take_all_false keys pads (i + 1) hlen hf

theorem length_layerForwardFull {V : Type u} [Add V] (L : LayerSem V) (pads : List Bool)
    (gctx mctx : List V) (xs : List V) :
    (layerForwardFull L pads gctx mctx xs).length = xs.length := by
  rw [layerForwardFull]
  exact length_mapWithIndex _ 0 xs

theorem length_stackFull {V : Type u} [Add V] (pads : List Bool) (gctx mctx : List V) :
    ∀ (Ls : List (LayerSem V)) (xs : List V),
      (stackFull pads gctx mctx Ls xs).length = xs.length := by
  intro Ls
  induction Ls with
  | nil => intro xs; rfl
  | cons L Ls' ih =>
    intro xs
    rw [stackFull, ih, length_layerForwardFull]

theorem layerStep_eq_full {V : Type u} [Add V] (L : LayerSem V) (pads : List Bool)
    (gctx mctx : List V) (xs : List V) (t : Nat) (d : V)
    (hlen : pads.length = xs.length) (hf : ∀ p ∈ pads, p = false)
    (ht : t < xs.length) :
    layerForwardStep L gctx mctx false ((xs.take t).map L.ln1) (xs.getD t d) =
      ((layerForwardFull L pads gctx mctx xs).getD t d,
        (xs.take (t + 1)).map L.ln1) := by
  have hcache : (xs.take t).map L.ln1 ++ [L.ln1 (xs.getD t d)] =
      (xs.take (t + 1)).map L.ln1 := by
    rw [take_succ_getD d xs t ht, List.map_append]
    rfl
  have hkeys : maskedKeys pads (xs.map L.ln1) t = (xs.take (t + 1)).map L.ln1 := by
    rw [maskedKeys_all_false pads (xs.map L.ln1) t (by simpa using hlen) hf]
    exact (List.map_take L.ln1 xs (t + 1)).symm
  have hfull : (layerForwardFull L pads gctx mctx xs).getD t d =
      (fun x =>
        L.feed_forward (L.drop (L.context_attn mctx (L.ln3
            (L.drop (L.graph_attn gctx (L.ln2
              (L.drop (L.self_attn ((xs.take (t + 1)).map L.ln1) (L.ln1 x)) + x))) +
              (L.drop (L.self_attn ((xs.take (t + 1)).map L.ln1) (L.ln1 x)) + x)))) +
          (L.drop (L.self_attn ((xs.take (t + 1)).map L.ln1) (L.ln1 x)) + x)))
        (xs.getD t d) := by
    rw [layerForwardFull, getD_mapWithIndex _ d d 0 xs t ht]
    simp only [Nat.zero_add, hkeys]
  rw [layerForwardStep]
  simp only [if_neg Bool.false_ne_true, hcache, hfull]

theorem stackStep_eq_full {V : Type u} [Add V] (pads : List Bool) (gctx mctx : List V)
    (hf : ∀ p ∈ pads, p = false) :
    ∀ (Ls : List (LayerSem V)) (xs : List V) (t : Nat) (d : V),
      pads.length = xs.length → t < xs.length →
      stackStep gctx mctx false Ls (cachesAt pads gctx mctx Ls xs t) (xs.getD t d) =
        ((stackFull pads gctx mctx Ls xs).getD t d,
          cachesAt pads gctx mctx Ls xs (t + 1)) := by
  intro Ls
  induction Ls with
  | nil =>
    intro xs t d _ _
    rfl
  | cons L Ls' ih =>
    intro xs t d hlen ht
    rw [cachesAt, stackStep]
    rw [layerStep_eq_full L pads gctx mctx xs t d hlen hf ht]
    have hlen' : pads.length = (layerForwardFull L pads gctx mctx xs).length := by
      rw [length_layerForwardFull]
      exact hlen
    have ht' : t < (layerForwardFull L pads gctx mctx xs).length := by
      rw [length_layerForwardFull]
      exact ht
    rw [ih (layerForwardFull L pads gctx mctx xs) t d hlen' ht']
    rfl

theorem cachesAt_zero {V : Type u} [Add V] (pads : List Bool) (gctx mctx : List V) :
    ∀ (Ls : List (LayerSem V)) (xs : List V),
      cachesAt pads gctx mctx Ls xs 0 = List.replicate Ls.length [] := by
  intro Ls
  induction Ls with
  | nil => intro xs; rfl
  | cons L Ls' ih =>
    intro xs
    rw [cachesAt, ih]
    rfl

theorem length_embSeq {V : Type u} [Add V] (embed pe : Nat → V) (tgt : List Nat) :
    (embSeq embed pe tgt).length = tgt.length := by
  rw [embSeq]
  exact length_mapWithIndex _ 0 tgt

theorem getD_embSeq {V : Type u} [Add V] (embed pe : Nat → V) (tgt : List Nat)
    (t : Nat) (d : V) (ht : t < tgt.length) :
    (embSeq embed pe tgt).getD t d = embed (tgt.getD t 0) + pe t := by
  rw [embSeq, getD_mapWithIndex _ d 0 0 tgt t ht]
  simp

theorem stepDecodeAux_eq_full {V : Type u} [Add V] (Ls : List (LayerSem V)) (lnF : V → V)
    (embed pe : Nat → V) (padding_idx : Nat) (gctx mctx : List V) (tgt : List Nat)
    (hnp : ∀ tok ∈ tgt, (tok == padding_idx) = false) :
    ∀ (rest : List Nat) (t : Nat), rest = tgt.drop t →
      stepDecodeAux Ls lnF embed pe padding_idx gctx mctx rest t
          (cachesAt (tgt.map (fun tok => tok == padding_idx)) gctx mctx Ls
            (embSeq embed pe tgt) t) =
        ((stackFull (tgt.map (fun tok => tok == padding_idx)) gctx mctx Ls
          (embSeq embed pe tgt)).map lnF).drop t := by
  set pads := tgt.map (fun tok => tok == padding_idx) with hpads
  have hpf : ∀ p ∈ pads, p = false := by
    intro p hp
    rw [hpads] at hp
    obtain ⟨tok, htok, rfl⟩ := List.mem_map.mp hp
    exact hnp tok htok
  have hplen : pads.length = (embSeq embed pe tgt).length := by
    rw [hpads, List.length_map, length_embSeq]
  intro rest
  induction rest with
  | nil =>
    intro t hrest
    have hlen : tgt.length ≤ t := by
      have := List.drop_eq_nil_iff_le.mp hrest.symm
      exact this
    rw [stepDecodeAux, List.drop_eq_nil_iff_le.mpr]
    rw [List.length_map, length_stackFull, length_embSeq]
    exact hlen
  | cons tok rest' ih =>
    intro t hrest
    have ht : t < tgt.length := by
      by_contra hcon
      rw [List.drop_eq_nil_iff_le.mpr (Nat.le_of_not_lt hcon)] at hrest
      exact absurd hrest (by simp)
    have hdropc := drop_eq_getD_cons 0 tgt t ht
    rw [← hrest] at hdropc
    have htok : tok = tgt.getD t 0 := by
      injection hdropc with h1 _
    have hrest' : rest' = tgt.drop (t + 1) := by
      injection hdropc with _ h2
    have htmem : tok ∈ tgt := by
      rw [htok, List.getD_eq_getElem tgt 0 ht]
      exact List.getElem_mem ht
    have hte : t < (embSeq embed pe tgt).length := by
      rw [length_embSeq]; exact ht
    rw [stepDecodeAux]
    rw [hnp tok htmem]
    have hx : embed tok + pe t = (embSeq embed pe tgt).getD t (embed 0) := by
      rw [getD_embSeq embed pe tgt t (embed 0) ht, htok]
    rw [hx]
    rw [stackStep_eq_full pads gctx mctx hpf Ls (embSeq embed pe tgt) t (embed 0)
      hplen hte]
    rw [ih (t + 1) hrest']
    have htf : t < ((stackFull pads gctx mctx Ls (embSeq embed pe tgt)).map lnF).length := by
      rw [List.length_map, length_stackFull, length_embSeq]
      exact ht
    rw [drop_eq_getD_cons (lnF (embed 0)) _ t htf]
    rw [getD_map lnF (lnF (embed 0)) (embed 0) _ t
      (by rw [length_stackFull, length_embSeq]; exact ht)]

/-- C2 amended: decoding one token at a time through a cache-initialized state
produces, at each position, exactly the output of a single non-incremental
forward pass over the same target prefix with a fresh no-cache state, for
every layer stack, memory banks, embedding/positional encoding and *pad-free*
target prefix (dropout disabled). For prefixes containing padding tokens the
per-step mask, built from the single current token only, cannot reproduce the
full pass's masking of earlier pad positions, and equality fails. -/
theorem incremental_decode_eq_full_pass {V : Type u} [Add V] (Ls : List (LayerSem V))
    (lnF : V → V) (embed pe : Nat → V) (padding_idx : Nat) (gctx mctx : List V)
    (tgt : List Nat)
    (hnp : ∀ tok ∈ tgt, tok ≠ padding_idx)
    (hdrop : ∀ L ∈ Ls, L.drop = id) :
    stepDecode Ls lnF embed pe padding_idx gctx mctx tgt =
      fullDecode Ls lnF embed pe padding_idx gctx mctx tgt := by
  have hnp' : ∀ tok ∈ tgt, (tok == padding_idx) = false := by
    intro tok htok
    simpa using hnp tok htok
  rw [stepDecode, fullDecode,
    ← cachesAt_zero (tgt.map (fun tok => tok == padding_idx)) gctx mctx Ls
      (embSeq embed pe tgt)]
  simpa using
    stepDecodeAux_eq_full Ls lnF embed pe padding_idx gctx mctx tgt hnp' tgt 0 (by simp)

/-- Concrete layer semantics over integer-valued vectors whose self-attention
output records how many key positions it saw. -/
def c2Sem : LayerSem Int where
  ln1 := id
  ln2 := id
  ln3 := id
  self_attn := fun ctx q => (ctx.length : Int) + q
  graph_attn := fun _ q => q
  context_attn := fun _ q => q
  feed_forward := id
  drop := id

/-- C2 witness: the equivalence instantiated on a one-layer stack and the
pad-free prefix `[1, 2]` (dropout being the identity). -/
theorem incremental_decode_eq_full_pass_witness :
    ((∀ tok ∈ [1, 2], tok ≠ 0) ∧ (∀ L ∈ [c2Sem], L.drop = id)) ∧
    stepDecode [c2Sem] id (fun n => (n : Int)) (fun _ => (0 : Int)) 0 [] [] [1, 2] =
      fullDecode [c2Sem] id (fun n => (n : Int)) (fun _ => (0 : Int)) 0 [] [] [1, 2] :=
  ⟨⟨by decide, by intro L hL; rw [List.mem_singleton] at hL; rw [hL]; rfl⟩,
    incremental_decode_eq_full_pass [c2Sem] id (fun n => (n : Int))
      (fun _ => (0 : Int)) 0 [] [] [1, 2] (by decide)
      (by intro L hL; rw [List.mem_singleton] at hL; rw [hL]; rfl)⟩

/-- C2 counterexample: on the prefix `[1, 0, 2]` containing the padding token
0 (dropout disabled — every dropout is the identity), incremental decoding
with cache differs from the full no-cache pass: the full pass masks the pad
position 1 out of position 2's self-attention keys, while the step-mode mask,
built from the current token alone, leaves the cached pad entry visible. -/
theorem incremental_decode_counterexample :
    (∀ L ∈ [c2Sem], L.drop = id) ∧
    stepDecode [c2Sem] id (fun n => (n : Int)) (fun _ => (0 : Int)) 0 [] [] [1, 0, 2] ≠
      fullDecode [c2Sem] id (fun n => (n : Int)) (fun _ => (0 : Int)) 0 [] [] [1, 0, 2] :=
  ⟨by intro L hL; rw [List.mem_singleton] at hL; rw [hL]; rfl, by decide⟩
